import Mathlib

/-!
Verification of `@lukecunningham/scaffold` (`bin/scaffold.js`), a Node.js CLI
that bootstraps GitHub repositories from declarative YAML recipes.

The development shallowly embeds the program's data model and logic:

* `Yaml` models the tree-shaped values produced by `js-yaml` (`yaml.load`):
  scalars, sequences and mappings (mappings as association lists of string
  keys, mirroring JavaScript object key order).
* `deepmerge` embeds the npm `deepmerge` library with default options, as
  called by `loadRecipes` (`merged = deepmerge(merged, r)`).
* `loadRecipes` / `resolveRecipePath` embed recipe reference resolution.
* `determineTarget`, `isLocalTarget`, `resolveRemoteOwnerRepo` embed the
  target-resolution logic of `main`.
* `getSecret` embeds the secret provider with the interactive prompt
  modelled as a queue of user inputs.
* `runScaffold` embeds `main`'s staged workflow as a driver over a fixed
  list of labelled stages, producing a trace of external actions tagged
  with the stage label active when each action ran, plus the run result.
-/

namespace Scaffold

/-- YAML/JSON values as loaded by `js-yaml`: scalars, sequences, mappings.
Mappings are association lists in JavaScript object key order. -/
inductive Yaml where
  | str : String → Yaml
  | num : Int → Yaml
  | bool : Bool → Yaml
  | null : Yaml
  | seq : List Yaml → Yaml
  | map : List (String × Yaml) → Yaml

/-- JavaScript falsiness for loaded YAML values: `undefined` is handled by
`Option` at use sites; here `null`, `false`, `0` and the empty string are
falsy. -/
def jsFalsy : Yaml → Bool
  | .null => true
  | .bool false => true
  | .num n => n == 0
  | .str s => s == ""
  | _ => false

/-- JavaScript truthiness of a possibly-`undefined` value (`none` models
`undefined`). -/
def jsTruthy (v : Option Yaml) : Bool :=
  match v with
  | none => false
  | some y => !jsFalsy y

/-- `deepmerge`'s `isMergeableObject` for loaded YAML values: arrays and
plain objects merge, scalars do not. -/
def isMergeable : Yaml → Bool
  | .seq _ => true
  | .map _ => true
  | _ => false

/-- `Object.keys`-style entry view: the entries of an object, `[]` for any
non-object (mirrors `getKeys` on a non-object returning no keys). -/
def entriesOf : Yaml → List (String × Yaml)
  | .map es => es
  | _ => []

/-- First-occurrence lookup in an association list, as JavaScript property
read `o[k]` on an object with unique keys. -/
def lookupY : List (String × Yaml) → String → Option Yaml
  | [], _ => none
  | (k, v) :: rest, k2 => if k = k2 then some v else lookupY rest k2

/-- JavaScript property assignment `o[k] = v` on an association list:
updating an existing key keeps its position, a new key is appended. -/
def setKey : List (String × Yaml) → String → Yaml → List (String × Yaml)
  | [], k, v => [(k, v)]
  | (k1, v1) :: rest, k, v =>
    if k1 = k then (k, v) :: rest else (k1, v1) :: setKey rest k v

mutual

/-- The npm `deepmerge` library with default options, as called by
`loadRecipes`: arrays concatenate (`target.concat(source)`), an
array/non-array mismatch returns the source, and otherwise the source's
entries are object-merged into the target's (`mergeObject`); a source with
no entries (a scalar) leaves just the target's entries. -/
def deepmerge : Yaml → Yaml → Yaml
  | .seq a, .seq b => .seq (a ++ b)
  | .seq _, s => s
  | _, .seq b => .seq b
  | t, .map ses => .map (mergeSourceEntries (entriesOf t) (entriesOf t) ses)
  | t, _ => .map (entriesOf t)

/-- `deepmerge`'s `mergeObject` loop over the source's entries: the
destination starts as the target's entries; each source entry whose key is
on the target and whose value is mergeable is merged recursively with the
target's value, otherwise the source value overrides. -/
def mergeSourceEntries (tes dest : List (String × Yaml)) :
    (ses : List (String × Yaml)) → List (String × Yaml)
  | [] => dest
  | (k, sv) :: rest =>
    let nv :=
      match lookupY tes k with
      | some tv => if isMergeable sv then deepmerge tv sv else sv
      | none => sv
    mergeSourceEntries tes (setKey dest k nv) rest

end

/-- `loadRecipes`'s fold: `merged = {}` then `merged = deepmerge(merged, r)`
for each loaded document in order. -/
def mergeDocs (docs : List Yaml) : Yaml :=
  docs.foldl deepmerge (Yaml.map [])

/-- The value `mergeObject` stores for a source entry `(k, sv)`: merged
recursively with the target's value at `k` when that exists and `sv` is
mergeable, otherwise `sv` itself. -/
def mergeVal (tes : List (String × Yaml)) (k : String) (sv : Yaml) : Yaml :=
  match lookupY tes k with
  | some tv => if isMergeable sv then deepmerge tv sv else sv
  | none => sv

/-- The keys of an association list, in order. -/
def keysOf (es : List (String × Yaml)) : List String :=
  es.map Prod.fst

/-- A document has duplicate-free top-level keys (trivially true for
non-mappings). A parsed YAML/JSON document always satisfies this: a
JavaScript object cannot carry duplicate keys. -/
def topKeysNodup : Yaml → Prop
  | .map es => (keysOf es).Nodup
  | _ => True

mutual

/-- JavaScript template-literal coercion of a loaded YAML value to a
string, as used when values are interpolated into shell commands. -/
def jsToString : Yaml → String
  | .str s => s
  | .num n => toString n
  | .bool b => if b then "true" else "false"
  | .null => "null"
  | .seq xs => String.intercalate "," (jsToStringList xs)
  | .map _ => "[object Object]"

/-- Elementwise coercion of a sequence's values. -/
def jsToStringList : List Yaml → List String
  | [] => []
  | x :: xs => jsToString x :: jsToStringList xs

end

/-- Coercion of a possibly-`undefined` value, as in `${v}`. -/
def jsToStringU : Option Yaml → String
  | none => "undefined"
  | some v => jsToString v

/-- JavaScript property access `v[k]` on a defined value: association-list
lookup on an object, `undefined` (`none`) on any non-object. -/
def jsProp (v : Yaml) (k : String) : Option Yaml :=
  match v with
  | .map es => lookupY es k
  | _ => none

/-- Optional-chaining path lookup (`recipe.github?.name` style): descends
through mappings, `undefined` as soon as a component is missing or the
current value is not a mapping. -/
def lookupPath (y : Yaml) : List String → Option Yaml
  | [] => some y
  | k :: ks =>
    match jsProp y k with
    | some v => lookupPath v ks
    | none => none

/-- `recipe.github.branches.<field>` exactly as the source evaluates it,
without optional chaining: the access throws a TypeError (modelled `none`)
when `github` or `branches` is `undefined` or `null`; otherwise it yields
the possibly-`undefined` field value. -/
def branchField (recipe : Yaml) (field : String) : Option (Option Yaml) :=
  match jsProp recipe "github" with
  | none => none
  | some .null => none
  | some gv =>
    match jsProp gv "branches" with
    | none => none
    | some .null => none
    | some bv => some (jsProp bv field)

/-- The file system visible to the process: `existsSync && isFile()`,
plain `existsSync`, and the parse result of a file's content (`yaml.load`;
`none` models an empty document parsing to `undefined`). -/
structure FileSys where
  isFile : String → Bool
  pathExists : String → Bool
  doc : String → Option Yaml

/-- The extension list tried inside the recipes directory, in source
order. -/
def extCandidates : List String := ["", ".yaml", ".yml", ".json", ".txt"]

/-- Recipe reference resolution (`loadRecipes`, lines 68-79): an existing
regular file is used directly; otherwise the recipes directory is searched
with each extension in order and the first match wins. -/
def resolveRecipePath (fs : FileSys) (recipesDir ref : String) : Option String :=
  if fs.isFile ref then some ref
  else (extCandidates.map (fun ext => recipesDir ++ "/" ++ ref ++ ext)).find? fs.isFile

/-- The failures surfaced by recipe loading and target determination. -/
inductive ScaffoldErr where
  | recipeNotFound (ref : String)
  | usage
  | noTargetName
  | missingOwnerVisibility
deriving DecidableEq

/-- Loading one recipe reference: resolve, read and parse; a document that
parses to a falsy value (in particular, an empty document) becomes the
empty mapping (`yaml.load(content) || ` empty object). -/
def loadOneRecipe (fs : FileSys) (recipesDir ref : String) : Except ScaffoldErr Yaml :=
  match resolveRecipePath fs recipesDir ref with
  | none => Except.error (ScaffoldErr.recipeNotFound ref)
  | some p =>
    match fs.doc p with
    | none => Except.ok (Yaml.map [])
    | some d => Except.ok (if jsFalsy d then Yaml.map [] else d)

/-- The loop body of `loadRecipes`: load each reference in order, merging
into the accumulator with `deepmerge`. -/
def loadRecipesFrom (fs : FileSys) (recipesDir : String) (merged : Yaml) :
    List String → Except ScaffoldErr Yaml
  | [] => Except.ok merged
  | ref :: rest =>
    match loadOneRecipe fs recipesDir ref with
    | Except.error e => Except.error e
    | Except.ok r => loadRecipesFrom fs recipesDir (deepmerge merged r) rest

/-- `loadRecipes`: fold all references over the empty mapping. -/
def loadRecipes (fs : FileSys) (recipesDir : String) (refs : List String) :
    Except ScaffoldErr Yaml :=
  loadRecipesFrom fs recipesDir (Yaml.map []) refs

/-- Target determination (`main`, lines 111-122): with a single CLI
argument the target comes from `recipe.github?.name` (truthy, else error);
then `github.owner` and `github.visibility` must be truthy. -/
def determineTarget (recipe : Yaml) (targetArg : Option String) :
    Except ScaffoldErr Yaml :=
  let checkOwnerVis : Yaml → Except ScaffoldErr Yaml := fun target =>
    if jsTruthy (lookupPath recipe ["github", "owner"])
        && jsTruthy (lookupPath recipe ["github", "visibility"]) then
      Except.ok target
    else Except.error ScaffoldErr.missingOwnerVisibility
  match targetArg with
  | some t => checkOwnerVis (Yaml.str t)
  | none =>
    match lookupPath recipe ["github", "name"] with
    | some nm =>
      if jsFalsy nm then Except.error ScaffoldErr.noTargetName
      else checkOwnerVis nm
    | none => Except.error ScaffoldErr.noTargetName

/-- Mode selection (`main`, line 144): the target is local when it is the
current-directory marker or names an existing filesystem path. -/
def isLocalTarget (fs : FileSys) (target : String) : Bool :=
  target == "." || fs.pathExists target

/-- JS `String.prototype.includes` for a single character. -/
def containsChar (s : String) (c : Char) : Bool :=
  s.toList.contains c

/-- Split a character list at every occurrence of the separator. -/
def splitCharList (sep : Char) : List Char → List (List Char)
  | [] => [[]]
  | c :: cs =>
    let r := splitCharList sep cs
    if c = sep then [] :: r
    else
      match r with
      | [] => [[c]]
      | h :: t => (c :: h) :: t

/-- JS `String.prototype.split` with a single-character separator. -/
def splitChar (sep : Char) (s : String) : List String :=
  (splitCharList sep s.toList).map (fun l => String.mk l)

/-- JS `String.prototype.trim`: strip surrounding whitespace. -/
def jsTrim (s : String) : String :=
  String.mk
    (((s.toList.dropWhile Char.isWhitespace).reverse.dropWhile Char.isWhitespace).reverse)

/-- Remote-mode owner/repo derivation (`main`, lines 156-162): a
slash-bearing target is split (JS `split('/', 2)`, keeping the first two
pieces) into owner and repo name, the embedded owner overriding the
configured one; otherwise the repo name is the target and the owner the
configured one; the repo name is then trimmed of surrounding whitespace. -/
def resolveRemoteOwnerRepo (cfgOwner target : String) : String × String :=
  let pair :=
    if containsChar target '/' then
      let parts := splitChar '/' target
      (parts.headD "", (parts.drop 1).headD "")
    else (cfgOwner, target)
  (pair.1, jsTrim pair.2)

/-- The state the Secret Provider touches: the process environment, the
queue of values the operator will type at the masked prompt, the queue of
yes/no answers to the save-confirmation prompt, and the lines appended to
the `.env` file. -/
structure SecretState where
  env : String → Option String
  prompts : List String
  confirms : List Bool
  envFile : List String

/-- The masked prompt re-asks until the input is non-empty (`validate`
rejects empty input); `none` when the operator never supplies one. -/
def takeNonempty : List String → Option (String × List String)
  | [] => none
  | v :: rest => if v = "" then takeNonempty rest else some (v, rest)

/-- `val.replace` of newlines before persisting to `.env`. -/
def stripNewlines (s : String) : String :=
  String.mk (s.toList.filter (fun c => c ≠ '\n'))

/-- JavaScript truthiness of an environment read: `undefined` and the
empty string are falsy. -/
def envTruthy : Option String → Bool
  | none => false
  | some s => s != ""

/-- `getSecret` (lines 38-62): return the environment value when truthy;
otherwise prompt (masked, re-asking while empty), store the value into the
process environment, ask whether to save, on yes append a
`NAME=value` line (newlines stripped) to `.env`, and return the
environment's value. `none` models blocking forever on exhausted input. -/
def getSecret (st : SecretState) (envVar : String) : Option (String × SecretState) :=
  if envTruthy (st.env envVar) then
    some ((st.env envVar).getD "", st)
  else
    match takeNonempty st.prompts with
    | none => none
    | some (val, prompts2) =>
      let env2 := fun k => if k = envVar then some val else st.env k
      match st.confirms with
      | [] => none
      | save :: confirms2 =>
        let file2 :=
          if save then st.envFile ++ [envVar ++ "=" ++ stripNewlines val]
          else st.envFile
        some ((env2 envVar).getD "", SecretState.mk env2 prompts2 confirms2 file2)

/-- The externally visible effects of the workflow: shell-outs to `gh`,
`git`, `cp`, `npx`, plus the working-directory mutations. Constructors are
distinct per stage use site. -/
inductive Action where
  | ghAuthStatus
  | ghAuthLogin
  | ghSecretSet (name value : String)
  | mkdirp (dir : String)
  | chdir (dir : String)
  | gitInit
  | ghRepoCreate (owner repo : String) (template : Option String) (visibility : String)
  | gitClone (owner repo : String)
  | copySeed (src : String)
  | gitCommitSeed (src : String)
  | gitPushDefault (branch : String)
  | gitCheckoutNew (branch : String)
  | gitPushUpstream (branch : String)
  | ghProtect (owner repo branch : String) (approvals : Yaml)
  | writeProjenrc
  | npxProjen
  | gitCommitSynth
  | gitPush

/-- The world outside the program: the file system, the fixed recipes
directory, the working directory, and which external actions fail. -/
structure World where
  fs : FileSys
  recipesDir : String
  cwd : String
  fails : Action → Bool

/-- Per-invocation state threaded through the stages of `main`. -/
structure St where
  secrets : SecretState
  recipeRefs : List String
  targetArg : Option String
  recipe : Yaml
  target : String
  isLocal : Bool
  owner : String
  repoName : String
  devBranch : String
  mainBranch : String

/-- The initial state of one invocation. -/
def St.init (sec : SecretState) : St :=
  ⟨sec, [], none, Yaml.map [], "", false, "", "", "", ""⟩

/-- Result of one stage: proceed, throw (caught by `main`'s handler), or
block forever on interactive input. -/
inductive StepRes where
  | ok (s : St)
  | fail
  | hang

/-- Result of a whole run: clean exit, exit 1 after the diagnostic naming
the failing stage, or blocked forever at a stage. -/
inductive RunResult where
  | success
  | failure (stage : String)
  | hung (stage : String)
deriving DecidableEq

/-- The modelled exit status: 0 on success, 1 on failure, none when the
process never exits. -/
def exitCode : RunResult → Option Nat
  | RunResult.success => some 0
  | RunResult.failure _ => some 1
  | RunResult.hung _ => none

/-- Whether a path string is absolute. -/
def startsWithSlash (p : String) : Bool :=
  match p.toList with
  | c :: _ => c = '/'
  | [] => false

/-- `path.resolve(cwd, p)`: absolute form with `.`/`..`/empty components
normalized. -/
def resolvePath (cwd p : String) : String :=
  let full := if startsWithSlash p then p else cwd ++ "/" ++ p
  let comps := (splitChar '/' full).foldl
    (fun acc c =>
      if c = "" || c = "." then acc
      else if c = ".." then acc.dropLast
      else acc ++ [c]) []
  "/" ++ String.intercalate "/" comps

/-- `path.basename`: the final non-empty path component. -/
def pathBasename (p : String) : String :=
  ((splitChar '/' p).filter (fun c => c != "")).getLastD ""

/-- Stage `parsing arguments` (lines 94-105). -/
def stageParse (args : List String) : St → List Action × StepRes := fun s =>
  if args.length < 1 then ([], StepRes.fail)
  else if args.length == 1 then
    ([], StepRes.ok { s with recipeRefs := args, targetArg := none })
  else
    ([], StepRes.ok
      { s with recipeRefs := args.dropLast, targetArg := some (args.getLast?.getD "") })

/-- Stage `loading recipes` (lines 107-109). -/
def stageLoad (w : World) : St → List Action × StepRes := fun s =>
  match loadRecipes w.fs w.recipesDir s.recipeRefs with
  | Except.error _ => ([], StepRes.fail)
  | Except.ok r => ([], StepRes.ok { s with recipe := r })

/-- Stage `determining target` (lines 111-122). -/
def stageDetermine : St → List Action × StepRes := fun s =>
  match determineTarget s.recipe s.targetArg with
  | Except.error _ => ([], StepRes.fail)
  | Except.ok tv => ([], StepRes.ok { s with target := jsToString tv })

/-- Stage `checking GH CLI auth` (lines 124-131): a failed status check is
caught and answered with an interactive login, whose own failure is the
stage's failure. -/
def stageAuth (w : World) : St → List Action × StepRes := fun s =>
  if w.fails Action.ghAuthStatus then
    if w.fails Action.ghAuthLogin then
      ([Action.ghAuthStatus, Action.ghAuthLogin], StepRes.fail)
    else ([Action.ghAuthStatus, Action.ghAuthLogin], StepRes.ok s)
  else ([Action.ghAuthStatus], StepRes.ok s)

/-- Loop result over the configured secret descriptors. -/
inductive LoopRes where
  | ok (sec : SecretState)
  | fail
  | hang

/-- The body of the secret-injection loop (lines 136-139): obtain each
value via `getSecret` and shell out to `gh secret set` (note: no target
repository is passed to `gh`). -/
def secretsLoop (w : World) : List Yaml → SecretState → List Action × LoopRes
  | [], sec => ([], LoopRes.ok sec)
  | item :: rest, sec =>
    let envKey := jsToStringU (jsProp item "fromEnv")
    match getSecret sec envKey with
    | none => ([], LoopRes.hang)
    | some (val, sec2) =>
      let a := Action.ghSecretSet (jsToStringU (jsProp item "name")) val
      if w.fails a then ([a], LoopRes.fail)
      else
        let r := secretsLoop w rest sec2
        (a :: r.1, r.2)

/-- Stage `injecting secrets` (lines 133-140): runs when
`recipe.github.secrets` is truthy; iterating a non-iterable value throws.
A truthy string iterates its characters (JS `for..of`). -/
def stageSecrets (w : World) : St → List Action × StepRes := fun s =>
  match jsProp s.recipe "github" with
  | none => ([], StepRes.fail)
  | some Yaml.null => ([], StepRes.fail)
  | some gv =>
    let sv := jsProp gv "secrets"
    if jsTruthy sv then
      let items : Option (List Yaml) :=
        match sv with
        | some (Yaml.seq xs) => some xs
        | some (Yaml.str cs) => some (cs.toList.map (fun c => Yaml.str (String.mk [c])))
        | _ => none
      match items with
      | none => ([], StepRes.fail)
      | some xs =>
        match secretsLoop w xs s.secrets with
        | (tr, LoopRes.ok sec2) => (tr, StepRes.ok { s with secrets := sec2 })
        | (tr, LoopRes.fail) => (tr, StepRes.fail)
        | (tr, LoopRes.hang) => (tr, StepRes.hang)
    else ([], StepRes.ok s)

/-- Stage `creating or cloning repo` (lines 142-169). -/
def stageCreate (w : World) : St → List Action × StepRes := fun s =>
  let isLocal := isLocalTarget w.fs s.target
  match jsProp s.recipe "github" with
  | none => ([], StepRes.fail)
  | some Yaml.null => ([], StepRes.fail)
  | some gv =>
    let cfgOwner := jsToStringU (jsProp gv "owner")
    if isLocal then
      let workdir := resolvePath w.cwd s.target
      let a1 := Action.mkdirp workdir
      if w.fails a1 then ([a1], StepRes.fail) else
      let a2 := Action.chdir workdir
      if w.fails a2 then ([a1, a2], StepRes.fail) else
      let s2 := { s with isLocal := true, owner := cfgOwner,
                         repoName := pathBasename workdir }
      if w.fs.pathExists (workdir ++ "/.git") then ([a1, a2], StepRes.ok s2)
      else
        let a3 := Action.gitInit
        if w.fails a3 then ([a1, a2, a3], StepRes.fail)
        else ([a1, a2, a3], StepRes.ok s2)
    else
      let tpl :=
        if jsTruthy (lookupPath s.recipe ["source", "repo"]) then
          some (jsToStringU (lookupPath s.recipe ["source", "repo"]))
        else none
      let pr := resolveRemoteOwnerRepo cfgOwner s.target
      let vis :=
        let v := jsProp gv "visibility"
        if jsTruthy v then jsToStringU v else "public"
      let a1 := Action.ghRepoCreate pr.1 pr.2 tpl vis
      if w.fails a1 then ([a1], StepRes.fail) else
      let a2 := Action.gitClone pr.1 pr.2
      if w.fails a2 then ([a1, a2], StepRes.fail) else
      let a3 := Action.chdir pr.2
      if w.fails a3 then ([a1, a2, a3], StepRes.fail)
      else ([a1, a2, a3], StepRes.ok { s with isLocal := false, owner := pr.1, repoName := pr.2 })

/-- Stage `seeding from local directory` (lines 171-178): a no-op without
`source.dir`; in remote mode the push reads
`recipe.github.branches.default` (throwing when `branches` is nullish). -/
def stageSeed (w : World) : St → List Action × StepRes := fun s =>
  let sd := lookupPath s.recipe ["source", "dir"]
  if jsTruthy sd then
    let dir := jsToStringU sd
    let a1 := Action.copySeed dir
    if w.fails a1 then ([a1], StepRes.fail) else
    let a2 := Action.gitCommitSeed dir
    if w.fails a2 then ([a1, a2], StepRes.fail) else
    if s.isLocal then ([a1, a2], StepRes.ok s)
    else
      match branchField s.recipe "default" with
      | none => ([a1, a2], StepRes.fail)
      | some db =>
        let a3 := Action.gitPushDefault (jsToStringU db)
        if w.fails a3 then ([a1, a2, a3], StepRes.fail)
        else ([a1, a2, a3], StepRes.ok s)
  else ([], StepRes.ok s)

/-- Stage `creating integration branch` (lines 180-185): always reads both
branch names (throwing when `branches` is nullish), creates and, in remote
mode, pushes the integration branch. -/
def stageIntegration (w : World) : St → List Action × StepRes := fun s =>
  match branchField s.recipe "default", branchField s.recipe "integration" with
  | some db, some ib =>
    let mainB := jsToStringU db
    let devB := jsToStringU ib
    let s2 := { s with devBranch := devB, mainBranch := mainB }
    let a1 := Action.gitCheckoutNew devB
    if w.fails a1 then ([a1], StepRes.fail) else
    if s.isLocal then ([a1], StepRes.ok s2)
    else
      let a2 := Action.gitPushUpstream devB
      if w.fails a2 then ([a1, a2], StepRes.fail)
      else ([a1, a2], StepRes.ok s2)
  | _, _ => ([], StepRes.fail)

/-- `p.approvals?.[branch] || 0` (line 192): the required-approval value
for a branch, `0` when the approvals mapping or the entry is absent or the
entry is falsy. -/
def protApproval (p : Yaml) (branch : String) : Yaml :=
  let v :=
    match jsProp p "approvals" with
    | none => none
    | some Yaml.null => none
    | some av => jsProp av branch
  match v with
  | some x => if jsFalsy x then Yaml.num 0 else x
  | none => Yaml.num 0

/-- Stage `applying branch protection` (lines 187-200): skipped when
`recipe.github.protection` is falsy; otherwise protects the integration
branch then the default branch, once each. -/
def stageProtection (w : World) : St → List Action × StepRes := fun s =>
  match jsProp s.recipe "github" with
  | none => ([], StepRes.fail)
  | some Yaml.null => ([], StepRes.fail)
  | some gv =>
    match jsProp gv "protection" with
    | none => ([], StepRes.ok s)
    | some p =>
      if jsFalsy p then ([], StepRes.ok s)
      else
        let a1 := Action.ghProtect s.owner s.repoName s.devBranch (protApproval p s.devBranch)
        if w.fails a1 then ([a1], StepRes.fail) else
        let a2 := Action.ghProtect s.owner s.repoName s.mainBranch (protApproval p s.mainBranch)
        if w.fails a2 then ([a1, a2], StepRes.fail)
        else ([a1, a2], StepRes.ok s)

/-- Stage `running projen synthesis` (lines 202-222): when `project` is
truthy, write `.projenrc.js`, run the generator, commit, and in remote
mode push. -/
def stageProjen (w : World) : St → List Action × StepRes := fun s =>
  if jsTruthy (lookupPath s.recipe ["project"]) then
    let a1 := Action.writeProjenrc
    if w.fails a1 then ([a1], StepRes.fail) else
    let a2 := Action.npxProjen
    if w.fails a2 then ([a1, a2], StepRes.fail) else
    let a3 := Action.gitCommitSynth
    if w.fails a3 then ([a1, a2, a3], StepRes.fail) else
    if s.isLocal then ([a1, a2, a3], StepRes.ok s)
    else
      let a4 := Action.gitPush
      if w.fails a4 then ([a1, a2, a3, a4], StepRes.fail)
      else ([a1, a2, a3, a4], StepRes.ok s)
  else ([], StepRes.ok s)

/-- The fixed, ordered stage list of `main`, with the labels the error
handler prints. -/
def scaffoldStages (w : World) (args : List String) :
    List (String × (St → List Action × StepRes)) :=
  [("parsing arguments", stageParse args),
   ("loading recipes", stageLoad w),
   ("determining target", stageDetermine),
   ("checking GH CLI auth", stageAuth w),
   ("injecting secrets", stageSecrets w),
   ("creating or cloning repo", stageCreate w),
   ("seeding from local directory", stageSeed w),
   ("creating integration branch", stageIntegration w),
   ("applying branch protection", stageProtection w),
   ("running projen synthesis", stageProjen w)]

/-- The stage labels in execution order. -/
def stageLabels : List String :=
  ["parsing arguments", "loading recipes", "determining target",
   "checking GH CLI auth", "injecting secrets", "creating or cloning repo",
   "seeding from local directory", "creating integration branch",
   "applying branch protection", "running projen synthesis"]

/-- Position of a stage label in execution order. -/
def stageIdx (lbl : String) : Nat := stageLabels.indexOf lbl

/-- The driver: run the stages in order, tagging every performed action
with the label of the stage that ran it; stop at the first failing or
hanging stage, reporting its label. -/
def runStages : List (String × (St → List Action × StepRes)) → St →
    List (String × Action) × RunResult
  | [], _ => ([], RunResult.success)
  | (lbl, f) :: rest, s =>
    match f s with
    | (tr, StepRes.ok s2) =>
      let r := runStages rest s2
      (tr.map (fun a => (lbl, a)) ++ r.1, r.2)
    | (tr, StepRes.fail) => (tr.map (fun a => (lbl, a)), RunResult.failure lbl)
    | (tr, StepRes.hang) => (tr.map (fun a => (lbl, a)), RunResult.hung lbl)

/-- One whole invocation of `main`. -/
def runScaffold (w : World) (args : List String) (sec : SecretState) :
    List (String × Action) × RunResult :=
  runStages (scaffoldStages w args) (St.init sec)

/-- A concrete recipe document: remote GitHub setup with one secret and
protection approvals only for `dev`. -/
def recipeDocA : Yaml :=
  .map [("github", .map
    [("owner", .str "acme"), ("visibility", .str "public"),
     ("branches", .map [("default", .str "main"), ("integration", .str "dev")]),
     ("secrets", .seq [.map [("name", .str "FOO"), ("fromEnv", .str "FOO_ENV")]]),
     ("protection", .map [("approvals", .map [("dev", .num 1)])])])]

/-- `recipeDocA` plus a `source.dir` seeding section. -/
def recipeDocSeed : Yaml :=
  .map [("source", .map [("dir", .str "seeddir")]),
    ("github", .map
    [("owner", .str "acme"), ("visibility", .str "public"),
     ("branches", .map [("default", .str "main"), ("integration", .str "dev")]),
     ("secrets", .seq [.map [("name", .str "FOO"), ("fromEnv", .str "FOO_ENV")]]),
     ("protection", .map [("approvals", .map [("dev", .num 1)])])])]

/-- A file system holding exactly the recipe file `r1` (parsing to
`recipeDocA`). -/
def fsA : FileSys :=
  ⟨fun p => p == "r1", fun p => p == "r1",
   fun p => if p == "r1" then some recipeDocA else none⟩

/-- A world where every external action succeeds. -/
def worldA : World := ⟨fsA, "recipes", "/work", fun _ => false⟩

/-- An environment having the configured secret preset (no prompting). -/
def secA : SecretState :=
  ⟨fun k => if k = "FOO_ENV" then some "secret1" else none, [], [], []⟩

/-- CLI arguments: one recipe reference and a remote owner/repo target. -/
def argsA : List String := ["r1", "acme/widgets"]

/-- A file system holding exactly the recipe file `r1` (parsing to
`recipeDocSeed`). -/
def fsSeed : FileSys :=
  ⟨fun p => p == "r1", fun p => p == "r1",
   fun p => if p == "r1" then some recipeDocSeed else none⟩

/-- Failure injection: exactly the seed commit fails. -/
def failsSeed : Action → Bool := fun a =>
  match a with
  | .gitCommitSeed _ => true
  | _ => false

/-- A world that fails at the seeding stage's commit. -/
def worldSeed : World := ⟨fsSeed, "recipes", "/work", failsSeed⟩

/-- An empty file system. -/
def fsNone : FileSys := ⟨fun _ => false, fun _ => false, fun _ => none⟩

/-- A recipe directory containing only `foo.yml`, whose content parses to
an empty document. -/
def fsOnlyYml : FileSys :=
  ⟨fun p => p == "recipes/foo.yml", fun p => p == "recipes/foo.yml", fun _ => none⟩

/-- A configuration whose `github.owner` is present but empty. -/
def recipeEmptyOwner : Yaml :=
  .map [("github", .map [("owner", .str ""), ("visibility", .str "public")])]

/-- A secret state where `GITHUB_TOKEN` is set to the empty string and the
operator would answer the prompt with `tok` and decline saving. -/
def secEmpty : SecretState :=
  ⟨fun k => if k = "GITHUB_TOKEN" then some "" else none, ["tok"], [false], []⟩

/-- An environment with every variable set to `tok`. -/
def secTok : SecretState := ⟨fun _ => some "tok", [], [], []⟩

/-- The orchestrator state as it reaches the protection stage of the
`recipeDocA` remote run. -/
def stProt : St :=
  ⟨secA, [], none, recipeDocA, "acme/widgets", false, "acme", "widgets", "dev", "main"⟩

theorem mergeSourceEntries_nil (tes dest : List (String × Yaml)) :
    mergeSourceEntries tes dest [] = dest := rfl

theorem mergeSourceEntries_cons (tes dest : List (String × Yaml)) (k : String)
    (sv : Yaml) (rest : List (String × Yaml)) :
    mergeSourceEntries tes dest ((k, sv) :: rest)
      = mergeSourceEntries tes (setKey dest k (mergeVal tes k sv)) rest := rfl

theorem lookupY_setKey (dest : List (String × Yaml)) (k k2 : String) (v : Yaml) :
    lookupY (setKey dest k v) k2 = if k = k2 then some v else lookupY dest k2 := by
  induction dest with
  | nil =>
    by_cases h : k = k2 <;> simp [setKey, lookupY, h]
  | cons hd tl ih =>
    obtain ⟨k1, v1⟩ := hd
    by_cases h1 : k1 = k
    · subst h1
      by_cases h2 : k1 = k2 <;> simp [setKey, lookupY, h2]
    · by_cases h2 : k1 = k2
      · subst h2
        simp [setKey, lookupY, h1]
        rw [if_neg (fun hh => h1 hh.symm)]
      · simp [setKey, lookupY, h1, h2, ih]

theorem lookupY_eq_none (es : List (String × Yaml)) (k : String)
    (h : k ∉ keysOf es) : lookupY es k = none := by
  induction es with
  | nil => rfl
  | cons hd tl ih =>
    obtain ⟨k1, v1⟩ := hd
    simp [keysOf] at h
    simp [lookupY, Ne.symm h.1, ih (by simp [keysOf, h.2])]

/-- Lookup in the result of `mergeObject`'s source loop: a key present in
the (duplicate-free) source gets the merged value; any other key keeps the
destination's value. -/
theorem lookupY_mergeSourceEntries (tes : List (String × Yaml)) (k : String) :
    ∀ (ses dest : List (String × Yaml)), (keysOf ses).Nodup →
      lookupY (mergeSourceEntries tes dest ses) k
        = match lookupY ses k with
          | some sv => some (mergeVal tes k sv)
          | none => lookupY dest k
  | [], dest, _ => by simp [mergeSourceEntries_nil, lookupY]
  | (k0, sv0) :: rest, dest, hnd => by
    have hh : k0 ∉ List.map Prod.fst rest ∧ (List.map Prod.fst rest).Nodup := by
      simpa only [keysOf, List.map_cons, List.nodup_cons] using hnd
    have hnd2 : (keysOf rest).Nodup := hh.2
    have hk0 : k0 ∉ keysOf rest := hh.1
    rw [mergeSourceEntries_cons]
    rw [lookupY_mergeSourceEntries tes k rest (setKey dest k0 (mergeVal tes k0 sv0)) hnd2]
    by_cases h : k0 = k
    · subst h
      rw [lookupY_eq_none rest k0 hk0]
      simp [lookupY, lookupY_setKey]
    · simp [lookupY, h, lookupY_setKey]

/-- Lookup in `deepmerge` of two objects, for a duplicate-free source: key
union, with source values overriding (scalars/sequence-mismatches) or
recursively merging (mergeable values). -/
theorem lookupY_deepmerge_map (A B : List (String × Yaml)) (k : String)
    (hB : (keysOf B).Nodup) :
    lookupY (entriesOf (deepmerge (.map A) (.map B))) k
      = match lookupY B k with
        | some sv => some (mergeVal A k sv)
        | none => lookupY A k := by
  show lookupY (mergeSourceEntries (entriesOf (Yaml.map A)) (entriesOf (Yaml.map A)) B) k = _
  rw [lookupY_mergeSourceEntries (entriesOf (Yaml.map A)) k B (entriesOf (Yaml.map A)) hB]
  rfl

theorem setKey_of_not_mem (dest : List (String × Yaml)) (k : String) (v : Yaml)
    (h : k ∉ keysOf dest) : setKey dest k v = dest ++ [(k, v)] := by
  induction dest with
  | nil => rfl
  | cons hd tl ih =>
    obtain ⟨k1, v1⟩ := hd
    simp only [keysOf, List.map_cons, List.mem_cons, not_or] at h
    have h1 : ¬k1 = k := fun hh => h.1 hh.symm
    simp [setKey, h1, ih h.2]

theorem mergeSourceEntries_empty_target (ses : List (String × Yaml)) :
    ∀ dest : List (String × Yaml), (keysOf (dest ++ ses)).Nodup →
      mergeSourceEntries [] dest ses = dest ++ ses := by
  induction ses with
  | nil => intro dest _; simp [mergeSourceEntries_nil]
  | cons hd rest ih =>
    intro dest hnd
    obtain ⟨k, sv⟩ := hd
    have hmv : mergeVal [] k sv = sv := rfl
    have hk : k ∉ keysOf dest := by
      intro hmem
      have hd2 : (List.map Prod.fst dest ++ (k :: List.map Prod.fst rest)).Nodup := by
        simpa only [keysOf, List.map_append, List.map_cons] using hnd
      exact List.disjoint_of_nodup_append hd2 hmem (List.mem_cons_self _ _)
    rw [mergeSourceEntries_cons, hmv, setKey_of_not_mem dest k sv hk]
    have hassoc : dest ++ [(k, sv)] ++ rest = dest ++ (k, sv) :: rest := by
      simp
    rw [ih (dest ++ [(k, sv)]) (by rw [hassoc]; exact hnd)]
    exact hassoc

/-- Merging a document into the empty mapping reproduces it, for sequences
and for mappings with duplicate-free keys. -/
theorem deepmerge_empty_left (A : Yaml) (hA : topKeysNodup A) (h2 : isMergeable A) :
    deepmerge (.map []) A = A := by
  cases A with
  | seq xs => rfl
  | map es =>
    show Yaml.map (mergeSourceEntries [] [] es) = Yaml.map es
    rw [mergeSourceEntries_empty_target es [] (by simpa [keysOf] using hA)]
    rfl
  | str s => simp [isMergeable] at h2
  | num n => simp [isMergeable] at h2
  | bool b => simp [isMergeable] at h2
  | null => simp [isMergeable] at h2

/-- Merging a non-mergeable (scalar) target behaves exactly like merging
the empty mapping: `mergeObject` ignores a scalar target's entries. -/
theorem deepmerge_scalar_left (A B : Yaml) (hA : isMergeable A = false) :
    deepmerge A B = deepmerge (.map []) B := by
  cases B with
  | seq xs => cases A <;> simp_all [isMergeable] <;> rfl
  | map es =>
    cases A <;> simp_all [isMergeable] <;> rfl
  | str s => cases A <;> simp_all [isMergeable] <;> rfl
  | num n => cases A <;> simp_all [isMergeable] <;> rfl
  | bool b => cases A <;> simp_all [isMergeable] <;> rfl
  | null => cases A <;> simp_all [isMergeable] <;> rfl

/-- The sequence merge of `loadRecipes` is the left-to-right fold of binary
`deepmerge`, for any first document with duplicate-free top-level keys. -/
theorem mergeDocs_eq_fold (A B C : Yaml) (hA : topKeysNodup A) :
    mergeDocs [A, B, C] = deepmerge (deepmerge A B) C := by
  show deepmerge (deepmerge (deepmerge (Yaml.map []) A) B) C = _
  by_cases hm : isMergeable A
  · rw [deepmerge_empty_left A hA hm]
  · rw [show deepmerge (Yaml.map []) A = Yaml.map [] by
      cases A <;> simp [isMergeable] at hm <;> rfl]
    rw [show deepmerge (Yaml.map []) B = deepmerge A B from
      (deepmerge_scalar_left A B (by simpa using hm)).symm]

/-- The re-asking prompt only ever yields a non-empty value. -/
theorem takeNonempty_sound :
    ∀ (l : List String) (v : String) (r : List String),
      takeNonempty l = some (v, r) → v ≠ ""
  | [], v, r, h => by simp [takeNonempty] at h
  | x :: xs, v, r, h => by
    by_cases hx : x = ""
    · exact takeNonempty_sound xs v r (by simpa [takeNonempty, hx] using h)
    · have : x = v ∧ xs = r := by simpa [takeNonempty, hx] using h
      rw [← this.1]; exact hx

/-- C8 counterexample: with `GITHUB_TOKEN` set (to the empty string) in
the environment, `getSecret` does prompt, consumes the queued input `tok`,
and returns `tok` rather than the existing environment value — so the
claim that an already-set variable is always returned unchanged with no
prompt is false as stated. -/
theorem getSecret_set_not_returned :
    (getSecret secEmpty "GITHUB_TOKEN").map
        (fun r => (r.1, r.2.prompts)) = some ("tok", [])
    ∧ secEmpty.env "GITHUB_TOKEN" = some ""
    ∧ ¬(∀ (st : SecretState) (envVar v : String), st.env envVar = some v →
        getSecret st envVar = some (v, st)) := by
  refine ⟨rfl, rfl, ?_⟩
  intro h
  have h2 := h secEmpty "GITHUB_TOKEN" "" rfl
  exact absurd (congrArg Prod.fst (Option.some.inj h2)) (by decide)

/-- C8 (amended): if the environment variable is set to a *non-empty*
string when `getSecret` is invoked, it never prompts and returns the
existing value unchanged, leaving all state unmodified. -/
theorem getSecret_env_passthrough (st : SecretState) (envVar v : String)
    (hset : st.env envVar = some v) (hne : v ≠ "") :
    getSecret st envVar = some (v, st) := by
  simp [getSecret, hset, envTruthy, hne]

/-- Witness for C8 (amended) at a concrete environment. -/
theorem getSecret_env_passthrough_witness :
    secTok.env "GITHUB_TOKEN" = some "tok" ∧ ("tok" : String) ≠ ""
    ∧ getSecret secTok "GITHUB_TOKEN" = some ("tok", secTok) :=
  ⟨rfl, by decide, getSecret_env_passthrough secTok "GITHUB_TOKEN" "tok" rfl (by decide)⟩

/-- When the environment read is falsy, a returning `getSecret` got its
value from the prompt queue, stored it into the environment, and consumed
one confirmation answer. -/
theorem getSecret_prompt_case (st : SecretState) (envVar : String)
    (henv : envTruthy (st.env envVar) = false) (res : String) (st2 : SecretState)
    (h : getSecret st envVar = some (res, st2)) :
    ∃ prompts2 save confirms2,
      takeNonempty st.prompts = some (res, prompts2)
      ∧ st.confirms = save :: confirms2
      ∧ st2.prompts = prompts2
      ∧ st2.env envVar = some res := by
  rw [getSecret, if_neg (by simp [henv])] at h
  match htn : takeNonempty st.prompts with
  | none => rw [htn] at h; exact absurd h (by simp)
  | some (val, prompts2) =>
    rw [htn] at h
    match hc : st.confirms with
    | [] => rw [hc] at h; exact absurd h (by simp)
    | save :: confirms2 =>
      rw [hc] at h
      have h2 := Option.some.inj h
      have hres : val = res := by simpa using congrArg Prod.fst h2
      have hst : SecretState.mk
          (fun k => if k = envVar then some val else st.env k) prompts2 confirms2
          (if save = true then st.envFile ++ [envVar ++ "=" ++ stripNewlines val]
           else st.envFile) = st2 := by
        simpa using congrArg Prod.snd h2
      subst hres
      exact ⟨prompts2, save, confirms2, rfl, rfl, by rw [← hst], by rw [← hst]; simp⟩

/-- C10: whenever `getSecret` returns, the value is non-empty and equals
the environment's value for that variable at return; and with the variable
set to the empty string the value was obtained by prompting (re-asked past
empty inputs), not returned from the environment. -/
theorem getSecret_returns_nonempty (st : SecretState) (envVar : String) :
    (∀ res st2, getSecret st envVar = some (res, st2) →
        res ≠ "" ∧ st2.env envVar = some res)
    ∧ (∀ res st2, st.env envVar = some "" → getSecret st envVar = some (res, st2) →
        takeNonempty st.prompts = some (res, st2.prompts)) := by
  constructor
  · intro res st2 h
    by_cases henv : envTruthy (st.env envVar) = true
    · rw [getSecret, if_pos henv] at h
      obtain ⟨hres, hst⟩ : (st.env envVar).getD "" = res ∧ st = st2 := by
        have := Option.some.inj h
        exact ⟨congrArg Prod.fst this, congrArg Prod.snd this⟩
      match hv : st.env envVar with
      | none => rw [hv] at henv; simp [envTruthy] at henv
      | some s =>
        rw [hv] at henv hres
        simp [envTruthy] at henv
        simp at hres
        subst hres
        exact ⟨henv, by rw [← hst, hv]⟩
    · obtain ⟨p2, sv, c2, _, _, _, he⟩ :=
        getSecret_prompt_case st envVar (by simpa using henv) res st2 h
      refine ⟨?_, he⟩
      obtain ⟨p3, sv2, c3, htn, _, _, _⟩ :=
        getSecret_prompt_case st envVar (by simpa using henv) res st2 h
      exact takeNonempty_sound st.prompts res p3 htn
  · intro res st2 hempty h
    have henv : envTruthy (st.env envVar) = false := by rw [hempty]; rfl
    obtain ⟨p2, sv, c2, htn, _, hp, _⟩ :=
      getSecret_prompt_case st envVar henv res st2 h
    rw [htn, hp]

/-- Witness for C10 at a concrete prompting run (empty environment, the
operator first types an empty value, is re-asked, types `tok`, declines to
save). -/
theorem getSecret_returns_nonempty_witness :
    ("tok" : String) ≠ ""
    ∧ (SecretState.mk (fun k => if k = "K" then some "tok" else none)
        [] [] []).env "K" = some "tok" :=
  (getSecret_returns_nonempty ⟨fun _ => none, ["", "tok"], [false], []⟩ "K").1
    "tok" (SecretState.mk (fun k => if k = "K" then some "tok" else none) [] [] []) rfl

/-- C6 counterexample: a configuration whose `github.owner` is present but
empty still fails target determination, refuting `fails exactly when a
required field is absent`. -/
theorem determineTarget_not_absence_exact :
    determineTarget recipeEmptyOwner (some "proj")
        = Except.error ScaffoldErr.missingOwnerVisibility
    ∧ lookupPath recipeEmptyOwner ["github", "owner"] = some (Yaml.str "")
    ∧ ¬(∀ (r : Yaml) (t : Option String),
        (∃ e, determineTarget r t = Except.error e) →
        (t = none ∧ lookupPath r ["github", "name"] = none)
        ∨ lookupPath r ["github", "owner"] = none
        ∨ lookupPath r ["github", "visibility"] = none) := by
  refine ⟨rfl, rfl, ?_⟩
  intro h
  rcases h recipeEmptyOwner (some "proj") ⟨ScaffoldErr.missingOwnerVisibility, rfl⟩ with
    ⟨hn, _⟩ | ho | hv
  · exact Option.noConfusion hn
  · exact Option.noConfusion ho
  · exact Option.noConfusion hv

/-- C6 (amended): target determination fails with the name error exactly
when no target argument was supplied and `github.name` is absent or falsy;
it fails with the owner/visibility error exactly when a target was
obtained but `github.owner` or `github.visibility` is absent or falsy; and
it succeeds with the supplied argument, or with the configured name when
no argument was supplied. -/
theorem determineTarget_spec (recipe : Yaml) (targetArg : Option String) :
    (determineTarget recipe targetArg = Except.error ScaffoldErr.noTargetName
        ↔ targetArg = none ∧ jsTruthy (lookupPath recipe ["github", "name"]) = false)
    ∧ (determineTarget recipe targetArg = Except.error ScaffoldErr.missingOwnerVisibility
        ↔ (targetArg ≠ none ∨ jsTruthy (lookupPath recipe ["github", "name"]) = true)
          ∧ (jsTruthy (lookupPath recipe ["github", "owner"]) = false
             ∨ jsTruthy (lookupPath recipe ["github", "visibility"]) = false))
    ∧ (∀ t, targetArg = some t →
          jsTruthy (lookupPath recipe ["github", "owner"]) = true →
          jsTruthy (lookupPath recipe ["github", "visibility"]) = true →
          determineTarget recipe targetArg = Except.ok (Yaml.str t))
    ∧ (∀ nm, targetArg = none → lookupPath recipe ["github", "name"] = some nm →
          jsFalsy nm = false →
          jsTruthy (lookupPath recipe ["github", "owner"]) = true →
          jsTruthy (lookupPath recipe ["github", "visibility"]) = true →
          determineTarget recipe targetArg = Except.ok nm) := by
  cases targetArg with
  | some t =>
    cases ho : jsTruthy (lookupPath recipe ["github", "owner"]) <;>
      cases hv : jsTruthy (lookupPath recipe ["github", "visibility"]) <;>
        simp [determineTarget, ho, hv]
  | none =>
    cases hn : lookupPath recipe ["github", "name"] with
    | none =>
      have hnt : jsTruthy (lookupPath recipe ["github", "name"]) = false := by
        rw [hn]; rfl
      have hj1 : jsTruthy (none : Option Yaml) = false := rfl
      cases ho : jsTruthy (lookupPath recipe ["github", "owner"]) <;>
        cases hv : jsTruthy (lookupPath recipe ["github", "visibility"]) <;>
          simp [determineTarget, hn, hnt, hj1, ho, hv]
    | some nm =>
      have hnt : jsTruthy (lookupPath recipe ["github", "name"]) = !jsFalsy nm := by
        rw [hn]; rfl
      have hj2 : jsTruthy (some nm) = !jsFalsy nm := rfl
      cases hf : jsFalsy nm <;>
        cases ho : jsTruthy (lookupPath recipe ["github", "owner"]) <;>
          cases hv : jsTruthy (lookupPath recipe ["github", "visibility"]) <;>
            simp [determineTarget, hn, hnt, hj2, hf, ho, hv]

/-- Witness for C6 (amended) at a concrete configuration and target. -/
theorem determineTarget_spec_witness :
    determineTarget recipeDocA (some "thing") = Except.ok (Yaml.str "thing") :=
  (determineTarget_spec recipeDocA (some "thing")).2.2.1 "thing" rfl rfl rfl

/-- C7: for a Remote-mode invocation (target is not `.` and names no
existing path), a slash-bearing target splits into owner and repo name
with the embedded owner overriding the configured one, a slash-free target
is the repo name with the configured owner, and the repo name is trimmed;
in particular owner `acme` with target `other/thing` resolves to
`other`/`thing`. -/
theorem remoteTarget_spec (fs : FileSys) (cfgOwner target : String)
    (hremote : isLocalTarget fs target = false) :
    (containsChar target '/' = true →
        resolveRemoteOwnerRepo cfgOwner target
          = ((splitChar '/' target).headD "",
             jsTrim (((splitChar '/' target).drop 1).headD "")))
    ∧ (containsChar target '/' = false →
        resolveRemoteOwnerRepo cfgOwner target = (cfgOwner, jsTrim target))
    ∧ target ≠ "."
    ∧ fs.pathExists target = false
    ∧ resolveRemoteOwnerRepo "acme" "other/thing" = ("other", "thing") := by
  have hor := hremote
  unfold isLocalTarget at hor
  rw [Bool.or_eq_false_iff] at hor
  refine ⟨?_, ?_, ?_, hor.2, by decide⟩
  · intro hc; simp [resolveRemoteOwnerRepo, hc]
  · intro hc; simp [resolveRemoteOwnerRepo, hc]
  · intro hdot
    rw [hdot] at hor
    simpa using hor.1

/-- Witness for C7 at concrete targets. -/
theorem remoteTarget_spec_witness :
    resolveRemoteOwnerRepo "acme" " widgets " = ("acme", "widgets")
    ∧ resolveRemoteOwnerRepo "acme" "other/thing" = ("other", "thing") :=
  ⟨(remoteTarget_spec fsNone "acme" " widgets " rfl).2.1 rfl,
   (remoteTarget_spec fsNone "acme" "other/thing" rfl).2.2.2.2⟩

/-- `find?` over a five-element list is the first-match cascade. -/
theorem find?_five (p : String → Bool) (c0 c1 c2 c3 c4 : String) :
    [c0, c1, c2, c3, c4].find? p
      = if p c0 then some c0 else if p c1 then some c1 else if p c2 then some c2
        else if p c3 then some c3 else if p c4 then some c4 else none := by
  cases h0 : p c0 <;> cases h1 : p c1 <;> cases h2 : p c2 <;> cases h3 : p c3 <;>
    cases h4 : p c4 <;> simp [List.find?, h0, h1, h2, h3, h4]

/-- C5: a reference naming an existing regular file is loaded directly;
otherwise the recipes directory is searched with the extensions (none,
`.yaml`, `.yml`, `.json`, `.txt`) in that order and the first match wins;
with no candidate the load fails with the recipe-not-found error; a file
whose content parses to an empty document loads as the empty mapping. -/
theorem recipeResolution_spec (fs : FileSys) (dir ref : String) :
    (resolveRecipePath fs dir ref
        = if fs.isFile ref then some ref
          else if fs.isFile (dir ++ "/" ++ ref ++ "") then some (dir ++ "/" ++ ref ++ "")
          else if fs.isFile (dir ++ "/" ++ ref ++ ".yaml") then
            some (dir ++ "/" ++ ref ++ ".yaml")
          else if fs.isFile (dir ++ "/" ++ ref ++ ".yml") then
            some (dir ++ "/" ++ ref ++ ".yml")
          else if fs.isFile (dir ++ "/" ++ ref ++ ".json") then
            some (dir ++ "/" ++ ref ++ ".json")
          else if fs.isFile (dir ++ "/" ++ ref ++ ".txt") then
            some (dir ++ "/" ++ ref ++ ".txt")
          else none)
    ∧ (resolveRecipePath fs dir ref = none →
        loadOneRecipe fs dir ref = Except.error (ScaffoldErr.recipeNotFound ref))
    ∧ (∀ p, resolveRecipePath fs dir ref = some p → fs.doc p = none →
        loadOneRecipe fs dir ref = Except.ok (Yaml.map [])) := by
  refine ⟨?_, ?_, ?_⟩
  · simp only [resolveRecipePath, extCandidates, List.map, find?_five]
  · intro h
    simp [loadOneRecipe, h]
  · intro p h1 h2
    simp [loadOneRecipe, h1, h2]

/-- Witness for C5: a recipe directory holding only `foo.yml`. -/
theorem recipeResolution_spec_witness :
    loadOneRecipe fsOnlyYml "recipes" "bar" = Except.error (ScaffoldErr.recipeNotFound "bar")
    ∧ resolveRecipePath fsOnlyYml "recipes" "foo" = some ("recipes" ++ "/" ++ "foo" ++ ".yml")
    ∧ loadOneRecipe fsOnlyYml "recipes" "foo" = Except.ok (Yaml.map []) :=
  ⟨(recipeResolution_spec fsOnlyYml "recipes" "bar").2.1 rfl,
   by rw [(recipeResolution_spec fsOnlyYml "recipes" "foo").1]; rfl,
   (recipeResolution_spec fsOnlyYml "recipes" "foo").2.2
     ("recipes" ++ "/" ++ "foo" ++ ".yml") rfl rfl⟩

/-- C1 counterexample: the later document's sequence does not replace the
earlier one's — the npm `deepmerge` default concatenates them — so merging
`a: [1]` then `a: [2]` yields `a: [1, 2]`, not `a: [2]`. -/
theorem mergeDocs_seq_concatenates :
    mergeDocs [Yaml.map [("a", Yaml.seq [Yaml.num 1])],
               Yaml.map [("a", Yaml.seq [Yaml.num 2])]]
      = Yaml.map [("a", Yaml.seq [Yaml.num 1, Yaml.num 2])]
    ∧ mergeDocs [Yaml.map [("a", Yaml.seq [Yaml.num 1])],
                 Yaml.map [("a", Yaml.seq [Yaml.num 2])]]
      ≠ Yaml.map [("a", Yaml.seq [Yaml.num 2])] := by
  refine ⟨rfl, ?_⟩
  intro h
  have h2 : Yaml.map [("a", Yaml.seq [Yaml.num 1, Yaml.num 2])]
      = Yaml.map [("a", Yaml.seq [Yaml.num 2])] := h
  simp at h2

/-- C1 (amended): merging concatenates sequence fields (earlier elements
then later ones, no deduplication) and recursively merges mapping fields
by key union, later non-mergeable values overriding. -/
theorem deepmerge_spec :
    (∀ xs ys : List Yaml, deepmerge (Yaml.seq xs) (Yaml.seq ys) = Yaml.seq (xs ++ ys))
    ∧ (∀ (A B : List (String × Yaml)) (k : String), (keysOf B).Nodup →
        lookupY (entriesOf (deepmerge (Yaml.map A) (Yaml.map B))) k
          = match lookupY B k with
            | some sv => some (mergeVal A k sv)
            | none => lookupY A k) :=
  ⟨fun _ _ => rfl, fun A B k hB => lookupY_deepmerge_map A B k hB⟩

/-- Witness for C1 (amended): a scalar override and a fresh key. -/
theorem deepmerge_spec_witness :
    deepmerge (Yaml.seq [Yaml.num 1]) (Yaml.seq [Yaml.num 2])
        = Yaml.seq [Yaml.num 1, Yaml.num 2]
    ∧ (keysOf [("x", Yaml.num 2)]).Nodup
    ∧ lookupY (entriesOf (deepmerge (Yaml.map [("x", Yaml.num 1), ("y", Yaml.num 3)])
          (Yaml.map [("x", Yaml.num 2)]))) "x" = some (Yaml.num 2)
    ∧ lookupY (entriesOf (deepmerge (Yaml.map [("x", Yaml.num 1), ("y", Yaml.num 3)])
          (Yaml.map [("x", Yaml.num 2)]))) "y" = some (Yaml.num 3) :=
  ⟨deepmerge_spec.1 [Yaml.num 1] [Yaml.num 2], by decide,
   deepmerge_spec.2 [("x", Yaml.num 1), ("y", Yaml.num 3)] [("x", Yaml.num 2)] "x" (by decide),
   deepmerge_spec.2 [("x", Yaml.num 1), ("y", Yaml.num 3)] [("x", Yaml.num 2)] "y" (by decide)⟩

/-- C4: merging is order-sensitive on scalar keys and union-additive on
nested mapping keys (the two orders of the example documents produce the
stated mappings — the nested result differs only in JavaScript object key
order, i.e. up to permutation), and merging a document list is the
left-to-right fold of binary merges. -/
theorem mergeDocs_order_and_fold :
    mergeDocs [Yaml.map [("x", Yaml.num 1), ("y", Yaml.map [("a", Yaml.num 1)])],
               Yaml.map [("x", Yaml.num 2), ("y", Yaml.map [("b", Yaml.num 2)])]]
      = Yaml.map [("x", Yaml.num 2),
                  ("y", Yaml.map [("a", Yaml.num 1), ("b", Yaml.num 2)])]
    ∧ mergeDocs [Yaml.map [("x", Yaml.num 2), ("y", Yaml.map [("b", Yaml.num 2)])],
                 Yaml.map [("x", Yaml.num 1), ("y", Yaml.map [("a", Yaml.num 1)])]]
      = Yaml.map [("x", Yaml.num 1),
                  ("y", Yaml.map [("b", Yaml.num 2), ("a", Yaml.num 1)])]
    ∧ [("b", Yaml.num 2), ("a", Yaml.num 1)].Perm [("a", Yaml.num 1), ("b", Yaml.num 2)]
    ∧ ∀ (X Y Z : Yaml), topKeysNodup X →
        mergeDocs [X, Y, Z] = deepmerge (deepmerge X Y) Z :=
  ⟨rfl, rfl, List.Perm.swap _ _ _, fun X Y Z hX => mergeDocs_eq_fold X Y Z hX⟩

/-- Witness for C4's fold conjunct at concrete documents. -/
theorem mergeDocs_order_and_fold_witness :
    topKeysNodup (Yaml.map [("k", Yaml.num 1)])
    ∧ mergeDocs [Yaml.map [("k", Yaml.num 1)], Yaml.map [("k", Yaml.num 2)],
                 Yaml.map [("m", Yaml.num 3)]]
      = deepmerge (deepmerge (Yaml.map [("k", Yaml.num 1)]) (Yaml.map [("k", Yaml.num 2)]))
          (Yaml.map [("m", Yaml.num 3)]) :=
  ⟨by show (keysOf [("k", Yaml.num 1)]).Nodup; decide,
   mergeDocs_order_and_fold.2.2.2 _ _ _
     (by show (keysOf [("k", Yaml.num 1)]).Nodup; decide)⟩

theorem runStages_cons (lbl : String) (f : St → List Action × StepRes)
    (rest : List (String × (St → List Action × StepRes))) (s : St) :
    runStages ((lbl, f) :: rest) s
      = match f s with
        | (tr, StepRes.ok s2) =>
          ((tr.map fun a => (lbl, a)) ++ (runStages rest s2).1, (runStages rest s2).2)
        | (tr, StepRes.fail) => (tr.map fun a => (lbl, a), RunResult.failure lbl)
        | (tr, StepRes.hang) => (tr.map fun a => (lbl, a), RunResult.hung lbl) := rfl

/-- A failing run splits the stage list at the reported label: every
traced action carries the label of an earlier stage or of the failing one. -/
theorem runStages_failure_decomp :
    ∀ (stages : List (String × (St → List Action × StepRes))) (s : St)
      (tr : List (String × Action)) (lbl : String),
      runStages stages s = (tr, RunResult.failure lbl) →
      ∃ pre f rest, stages = pre ++ (lbl, f) :: rest ∧
        ∀ pr ∈ tr, pr.1 ∈ pre.map Prod.fst ∨ pr.1 = lbl
  | [], s, tr, lbl, h => by
    simp [runStages] at h
  | (l0, f0) :: rest, s, tr, lbl, h => by
    rw [runStages_cons] at h
    rcases hf : f0 s with ⟨tr0, r0⟩
    rw [hf] at h
    cases r0 with
    | ok s2 =>
      simp only [Prod.mk.injEq] at h
      obtain ⟨htr, hres⟩ := h
      obtain ⟨pre, f, rest2, heq, hmem⟩ :=
        runStages_failure_decomp rest s2 (runStages rest s2).1 lbl
          (by rw [← hres])
      refine ⟨(l0, f0) :: pre, f, rest2, by rw [List.cons_append, heq], ?_⟩
      intro pr hpr
      rw [← htr] at hpr
      rcases List.mem_append.mp hpr with hl | hr2
      · left
        rcases List.mem_map.mp hl with ⟨a, _, hpa⟩
        rw [← hpa]
        simp
      · rcases hmem pr hr2 with h1 | h2
        · left; simp only [List.map_cons]; exact List.mem_cons_of_mem _ h1
        · right; exact h2
    | fail =>
      simp only [Prod.mk.injEq, RunResult.failure.injEq] at h
      obtain ⟨htr, hres⟩ := h
      subst hres
      refine ⟨[], f0, rest, rfl, ?_⟩
      intro pr hpr
      rw [← htr] at hpr
      rcases List.mem_map.mp hpr with ⟨a, _, hpa⟩
      right
      rw [← hpa]
    | hang =>
      simp only [Prod.mk.injEq] at h
      exact absurd h.2 (by simp)

/-- C3: when a run fails, the reported label is a stage label, the exit
status is 1, and every performed action belongs to the failing stage or an
earlier one — no later stage acted; a fully successful run exits 0. -/
theorem scaffold_stage_abort (w : World) (args : List String) (sec : SecretState) :
    (∀ tr lbl, runScaffold w args sec = (tr, RunResult.failure lbl) →
        lbl ∈ stageLabels
        ∧ exitCode (RunResult.failure lbl) = some 1
        ∧ ∀ pr ∈ tr, stageIdx pr.1 ≤ stageIdx lbl)
    ∧ (∀ tr, runScaffold w args sec = (tr, RunResult.success) →
        exitCode RunResult.success = some 0) := by
  constructor
  · intro tr lbl h
    obtain ⟨pre, f, rest2, heq, hmem⟩ :=
      runStages_failure_decomp (scaffoldStages w args) (St.init sec) tr lbl h
    have hlab : stageLabels = pre.map Prod.fst ++ lbl :: rest2.map Prod.fst := by
      have h2 : (scaffoldStages w args).map Prod.fst = stageLabels := rfl
      rw [← h2, heq]
      simp
    have hnotin : lbl ∉ pre.map Prod.fst := by
      intro hmem2
      have hnd : stageLabels.Nodup := by decide
      rw [hlab] at hnd
      exact List.disjoint_of_nodup_append hnd hmem2 (List.mem_cons_self _ _)
    refine ⟨by rw [hlab]; exact List.mem_append_right _ (List.mem_cons_self _ _), rfl, ?_⟩
    intro pr hpr
    rcases hmem pr hpr with hl | hr
    · have hlt : stageIdx pr.1 < stageIdx lbl := by
        unfold stageIdx
        rw [hlab, List.indexOf_append_of_mem hl, List.indexOf_append_of_not_mem hnotin,
          List.indexOf_cons_self]
        calc List.indexOf pr.1 (pre.map Prod.fst) < (pre.map Prod.fst).length :=
              List.indexOf_lt_length.mpr hl
          _ ≤ (pre.map Prod.fst).length + 0 := by omega
      exact Nat.le_of_lt hlt
    · rw [hr]
  · intro tr h
    rfl

/-- Witness for C3: a run whose seed commit fails reports the seeding
stage, and every traced action belongs to that stage or an earlier one (in
particular no branch-creation or protection action ran). -/
theorem scaffold_stage_abort_witness :
    "seeding from local directory" ∈ stageLabels
    ∧ exitCode (RunResult.failure "seeding from local directory") = some 1
    ∧ ∀ pr ∈ ([("checking GH CLI auth", Action.ghAuthStatus),
          ("injecting secrets", Action.ghSecretSet "FOO" "secret1"),
          ("creating or cloning repo",
            Action.ghRepoCreate "acme" "widgets" none "public"),
          ("creating or cloning repo", Action.gitClone "acme" "widgets"),
          ("creating or cloning repo", Action.chdir "widgets"),
          ("seeding from local directory", Action.copySeed "seeddir"),
          ("seeding from local directory", Action.gitCommitSeed "seeddir")] :
            List (String × Action)),
        stageIdx pr.1 ≤ stageIdx "seeding from local directory" :=
  (scaffold_stage_abort worldSeed argsA secA).1
    [("checking GH CLI auth", Action.ghAuthStatus),
     ("injecting secrets", Action.ghSecretSet "FOO" "secret1"),
     ("creating or cloning repo", Action.ghRepoCreate "acme" "widgets" none "public"),
     ("creating or cloning repo", Action.gitClone "acme" "widgets"),
     ("creating or cloning repo", Action.chdir "widgets"),
     ("seeding from local directory", Action.copySeed "seeddir"),
     ("seeding from local directory", Action.gitCommitSeed "seeddir")]
    "seeding from local directory" rfl

/-- C2: the full trace of a configured remote run with a secret — the
`gh secret set` call runs during the `injecting secrets` stage, strictly
before the `creating or cloning repo` stage where the effective owner and
repo name are first computed, and the secret-set action names no
repository at all (it targets the ambient working-directory context). -/
theorem secretInjection_before_target_resolution :
    runScaffold worldA argsA secA
      = ([("checking GH CLI auth", Action.ghAuthStatus),
          ("injecting secrets", Action.ghSecretSet "FOO" "secret1"),
          ("creating or cloning repo",
            Action.ghRepoCreate "acme" "widgets" none "public"),
          ("creating or cloning repo", Action.gitClone "acme" "widgets"),
          ("creating or cloning repo", Action.chdir "widgets"),
          ("creating integration branch", Action.gitCheckoutNew "dev"),
          ("creating integration branch", Action.gitPushUpstream "dev"),
          ("applying branch protection",
            Action.ghProtect "acme" "widgets" "dev" (Yaml.num 1)),
          ("applying branch protection",
            Action.ghProtect "acme" "widgets" "main" (Yaml.num 0))],
         RunResult.success)
    ∧ stageIdx "injecting secrets" < stageIdx "creating or cloning repo" :=
  ⟨rfl, by decide⟩

/-- C9: with `github.protection` configured (truthy), the protection stage
applies protection to the integration branch and then the default branch,
once each, with each branch's approval count derived by
`protApproval`; with it absent (or falsy) the stage is skipped without
error; and `protApproval` yields the approvals entry when present and
truthy, and zero when the approvals mapping or the entry is absent. -/
theorem protection_stage_spec (w : World) (s : St) (ges : List (String × Yaml))
    (hg : jsProp s.recipe "github" = some (Yaml.map ges))
    (hok : ∀ a, w.fails a = false) :
    (∀ p, lookupY ges "protection" = some p → jsFalsy p = false →
        stageProtection w s
          = ([Action.ghProtect s.owner s.repoName s.devBranch (protApproval p s.devBranch),
              Action.ghProtect s.owner s.repoName s.mainBranch (protApproval p s.mainBranch)],
             StepRes.ok s))
    ∧ (lookupY ges "protection" = none → stageProtection w s = ([], StepRes.ok s))
    ∧ (∀ p, lookupY ges "protection" = some p → jsFalsy p = true →
        stageProtection w s = ([], StepRes.ok s))
    ∧ (∀ p b, jsProp p "approvals" = none → protApproval p b = Yaml.num 0)
    ∧ (∀ p avs b, jsProp p "approvals" = some (Yaml.map avs) → lookupY avs b = none →
        protApproval p b = Yaml.num 0)
    ∧ (∀ p avs b v, jsProp p "approvals" = some (Yaml.map avs) → lookupY avs b = some v →
        jsFalsy v = false → protApproval p b = v) := by
  refine ⟨?_, ?_, ?_, ?_, ?_, ?_⟩
  · intro p hp hfal
    have hpp : jsProp (Yaml.map ges) "protection" = some p := hp
    simp only [stageProtection, hg, hpp, hfal, hok, Bool.false_eq_true, if_false]
  · intro hp
    have hpp : jsProp (Yaml.map ges) "protection" = none := hp
    simp only [stageProtection, hg, hpp]
  · intro p hp hfal
    have hpp : jsProp (Yaml.map ges) "protection" = some p := hp
    simp only [stageProtection, hg, hpp, hfal, if_true]
  · intro p b hap
    simp only [protApproval, hap]
  · intro p avs b hap hb
    have hb2 : jsProp (Yaml.map avs) b = none := hb
    cases havs : Yaml.map avs with
    | _ => simp only [protApproval, hap, ← havs, hb2]
  · intro p avs b v hap hb hfal
    have hb2 : jsProp (Yaml.map avs) b = some v := hb
    simp only [protApproval, hap, hb2, hfal, Bool.false_eq_true, if_false]

/-- Witness for C9 at the concrete protection configuration
`approvals: (dev 1)` over branches `dev` and `main`: one approval for
`dev`, zero for `main`, each branch protected once. -/
theorem protection_stage_spec_witness :
    stageProtection worldA stProt
      = ([Action.ghProtect "acme" "widgets" "dev" (Yaml.num 1),
          Action.ghProtect "acme" "widgets" "main" (Yaml.num 0)], StepRes.ok stProt)
    ∧ protApproval (Yaml.map [("approvals", Yaml.map [("dev", Yaml.num 1)])]) "main"
        = Yaml.num 0 :=
  ⟨(protection_stage_spec worldA stProt
      [("owner", Yaml.str "acme"), ("visibility", Yaml.str "public"),
       ("branches", Yaml.map [("default", Yaml.str "main"),
                              ("integration", Yaml.str "dev")]),
       ("secrets", Yaml.seq [Yaml.map [("name", Yaml.str "FOO"),
                                       ("fromEnv", Yaml.str "FOO_ENV")]]),
       ("protection", Yaml.map [("approvals", Yaml.map [("dev", Yaml.num 1)])])]
      rfl (fun _ => rfl)).1
      (Yaml.map [("approvals", Yaml.map [("dev", Yaml.num 1)])]) rfl rfl,
   (protection_stage_spec worldA stProt
      [("owner", Yaml.str "acme"), ("visibility", Yaml.str "public"),
       ("branches", Yaml.map [("default", Yaml.str "main"),
                              ("integration", Yaml.str "dev")]),
       ("secrets", Yaml.seq [Yaml.map [("name", Yaml.str "FOO"),
                                       ("fromEnv", Yaml.str "FOO_ENV")]]),
       ("protection", Yaml.map [("approvals", Yaml.map [("dev", Yaml.num 1)])])]
      rfl (fun _ => rfl)).2.2.2.2.1
      (Yaml.map [("approvals", Yaml.map [("dev", Yaml.num 1)])])
      [("dev", Yaml.num 1)] "main" rfl rfl⟩

end Scaffold
